import Mathlib

/-!
Verification of the ABAP `SELECT *` remediator (SAP note 2768887 filter
injector) against its specification.  The embedding below translates the
core of `app/app.py`: the statement locator (the regex `SELECT_STAR_RE`
together with `finditer`), the filter injector `ensure_draft_filter`, the
normalising `build_replacement_stmt`, the span editor
`apply_span_replacements` and the per-unit processor `remediate_array`.
Texts are lists of characters; the regex is embedded as an explicit
backtracking matcher with Python `re` semantics (IGNORECASE, DOTALL,
leftmost match, lazy `*?`, greedy `\w+` with backtracking, ordered
alternation).
-/

set_option maxRecDepth 10000

namespace App

/-- Python `\s` (ASCII part, as used by `re` on this input class). -/
def isSpace (c : Char) : Bool :=
  c == ' ' || c == '\t' || c == '\n' || c == '\r' || c == '\x0b' || c == '\x0c'

/-- Python `\w` (ASCII part): letters, digits and underscore. -/
def isWordChar (c : Char) : Bool :=
  c.isAlphanum || c == '_'

/-- Case-insensitive character comparison (`re.IGNORECASE`, ASCII). -/
def ciEq (a b : Char) : Bool := a.toLower == b.toLower

/-- Python `str.upper()` (ASCII). -/
def upper (l : List Char) : List Char := l.map Char.toUpper

/-- Match a literal pattern case-insensitively at the head of `t`;
returns the consumed original characters and the remainder. -/
def matchLitCI : List Char → List Char → Option (List Char × List Char)
  | [], t => some ([], t)
  | _ :: _, [] => none
  | p :: ps, c :: cs =>
    if ciEq p c then
      match matchLitCI ps cs with
      | some (x, r) => some (c :: x, r)
      | none => none
    else none

/-- `\s+`: consume a maximal nonempty whitespace run.  The regex atoms that
follow every `\s+` in `SELECT_STAR_RE` start with a non-whitespace
character, so the greedy maximal run is the only one a backtracking
engine can commit to. -/
def takeWs1 (t : List Char) : Option (List Char × List Char) :=
  let x := t.takeWhile isSpace
  if x = [] then none else some (x, t.dropWhile isSpace)

/-- `\w+`: consume a maximal nonempty word-character run. -/
def takeWord1 (t : List Char) : Option (List Char × List Char) :=
  let x := t.takeWhile isWordChar
  if x = [] then none else some (x, t.dropWhile isWordChar)

/-- `(?P<tail>.*?)\.` with DOTALL: the lazy tail ends at the first literal
period.  Returns the dot-free part before the first `'.'` and the part
after it. -/
def splitAtDot : List Char → Option (List Char × List Char)
  | [] => none
  | c :: rest =>
    if c = '.' then some ([], rest)
    else
      match splitAtDot rest with
      | some (a, b) => some (c :: a, b)
      | none => none

/-- First alternative `INTO\s+TABLE\s+(?P<into_tab>\w+)`.
Returns (consumed text, target type, captured name, remainder). -/
def matchIntoTab (t : List Char) : Option (List Char × String × List Char × List Char) :=
  match matchLitCI "INTO".data t with
  | none => none
  | some (a, r1) =>
    match takeWs1 r1 with
    | none => none
    | some (b, r2) =>
      match matchLitCI "TABLE".data r2 with
      | none => none
      | some (c, r3) =>
        match takeWs1 r3 with
        | none => none
        | some (d, r4) =>
          match takeWord1 r4 with
          | none => none
          | some (nm, r5) => some (a ++ b ++ c ++ d ++ nm, "itab", nm, r5)

/-- Second alternative `INTO\s+(?P<into_wa>\w+)`. -/
def matchIntoWa (t : List Char) : Option (List Char × String × List Char × List Char) :=
  match matchLitCI "INTO".data t with
  | none => none
  | some (a, r1) =>
    match takeWs1 r1 with
    | none => none
    | some (b, r2) =>
      match takeWord1 r2 with
      | none => none
      | some (nm, r3) => some (a ++ b ++ nm, "wa", nm, r3)

/-- The ordered alternation `(?:INTO\s+TABLE\s+\w+)|(?:INTO\s+\w+)`:
the table-variable form is tried first. -/
def matchIntoClause (t : List Char) : Option (List Char × String × List Char × List Char) :=
  match matchIntoTab t with
  | some x => some x
  | none => matchIntoWa t

structure MidRes where
  middle : List Char
  intoPiece : List Char
  target_type : String
  target_name : List Char
  rest : List Char
  deriving Repr, DecidableEq

/-- The lazy region `(?P<middle>.*?)` followed by the INTO alternation and
the requirement that a terminating period exists later: the middle grows
one character at a time (DOTALL: it may cross newlines and periods) and
stops at the first position where the INTO clause matches and a period
follows.  If the first matching alternative finds no later period, the
other alternative cannot either (only `\s`/`\w` characters separate their
ends), so the engine extends the middle — which is what the recursion
does. -/
def middleLoop : List Char → Option MidRes
  | [] => none
  | c :: t =>
    match matchIntoClause (c :: t) with
    | some (piece, ty, nm, r) =>
      if (splitAtDot r).isSome then some ⟨[], piece, ty, nm, r⟩
      else
        match middleLoop t with
        | some m => some { m with middle := c :: m.middle }
        | none => none
    | none =>
      match middleLoop t with
      | some m => some { m with middle := c :: m.middle }
      | none => none

structure TLRes where
  table : List Char
  middle : List Char
  intoPiece : List Char
  target_type : String
  target_name : List Char
  rest : List Char
  deriving Repr, DecidableEq

/-- Greedy `(?P<table>\w+)` with backtracking: the candidate table name
starts as the maximal word run and is shortened from the right until the
remainder of the pattern succeeds; the shed characters are retried as part
of the middle region.  `revTbl` is the reversed current candidate. -/
def tableLoopAux : List Char → List Char → Option TLRes
  | [], _ => none
  | c :: revRest, t =>
    match middleLoop t with
    | some m =>
      some ⟨(c :: revRest).reverse, m.middle, m.intoPiece, m.target_type, m.target_name, m.rest⟩
    | none => tableLoopAux revRest (c :: t)

/-- `SINGLE\s+` then `*` (the group-present branch of `(?:SINGLE\s+)?\*`). -/
def matchSingleStar (t : List Char) : Option (List Char × List Char) :=
  match matchLitCI "SINGLE".data t with
  | none => none
  | some (a, r1) =>
    match takeWs1 r1 with
    | none => none
    | some (b, r2) =>
      match matchLitCI "*".data r2 with
      | none => none
      | some (c, r3) => some (a ++ b ++ c, r3)

/-- `(?:SINGLE\s+)?\*`: the optional group is tried first; if its branch
fails the bare `*` is tried.  (If the optional branch succeeds through the
asterisk, the bare branch would need `*` at a position holding `S`, so the
two branches never both continue — the first success is committed.) -/
def matchStar (t : List Char) : Option (List Char × List Char) :=
  match matchSingleStar t with
  | some x => some x
  | none => matchLitCI "*".data t

structure SelRes where
  table : List Char
  target_type : String
  target_name : List Char
  full : List Char
  rest : List Char
  deriving Repr, DecidableEq

/-- One attempt of `SELECT_STAR_RE` anchored at the head of `u` (Python
tries each start offset in turn; see `findSelectsAux`).  `full` is the
named group `full` — everything before the terminating period — and
`rest` is the input after that period. -/
def matchCore (u : List Char) : Option SelRes :=
  match matchLitCI "SELECT".data u with
  | none => none
  | some (x1, r1) =>
    match takeWs1 r1 with
    | none => none
    | some (w1, r2) =>
      match matchStar r2 with
      | none => none
      | some (x2, r3) =>
        match takeWs1 r3 with
        | none => none
        | some (w2, r4) =>
          match matchLitCI "FROM".data r4 with
          | none => none
          | some (x3, r5) =>
            match takeWs1 r5 with
            | none => none
            | some (w3, r6) =>
              match takeWord1 r6 with
              | none => none
              | some (tw, r7) =>
                match tableLoopAux tw.reverse r7 with
                | none => none
                | some res =>
                  match splitAtDot res.rest with
                  | none => none
                  | some (tail, rest) =>
                    some { table := res.table, target_type := res.target_type,
                           target_name := res.target_name,
                           full := x1 ++ w1 ++ x2 ++ w2 ++ x3 ++ w3 ++ res.table
                                    ++ res.middle ++ res.intoPiece ++ tail,
                           rest := rest }

/-- The dictionary built by `find_selects` for one match: `m.group("full")`,
the captures, and `m.span(0)` (which, unlike `full`, includes the
terminating period). -/
structure Located where
  text : List Char
  table : List Char
  target_type : String
  target_name : List Char
  span : Nat × Nat
  deriving Repr, DecidableEq

/-- `finditer`: try every start offset left to right; after a match,
resume at its end (matches are nonempty).  The fuel `txt.length + 2`
bounds the number of steps (each step advances the offset by at least
one beyond `txt.length`). -/
def findSelectsAux (txt : List Char) : Nat → Nat → List Located
  | 0, _ => []
  | fuel + 1, i =>
    if i ≤ txt.length then
      match matchCore (txt.drop i) with
      | some r =>
        { text := r.full, table := r.table, target_type := r.target_type,
          target_name := r.target_name,
          span := (i, i + r.full.length + 1) }
          :: findSelectsAux txt fuel (i + r.full.length + 1)
      | none => findSelectsAux txt fuel (i + 1)
    else []

/-- `find_selects`: all matches of `SELECT_STAR_RE` in `txt`. -/
def find_selects (txt : List Char) : List Located :=
  findSelectsAux txt (txt.length + 2) 0

/-- The filter-presence test `re.search(rf"{table_up}-DRAFT\s*=\s*['\"]? ?['\"]?", s, re.IGNORECASE)`
at one position: literal `<TABLE>-DRAFT` (case-insensitive), then `\s*`,
then `=`.  The trailing `\s*['\"]? ?['\"]?` imposes no constraint (every
atom in it can match the empty string and nothing follows), so it is
omitted. -/
def hasDraftAt (table_up : List Char) (t : List Char) : Bool :=
  match matchLitCI (table_up ++ "-DRAFT".data) t with
  | none => false
  | some (_, r) =>
    match r.dropWhile isSpace with
    | '=' :: _ => true
    | _ => false

/-- `re.search` of the filter pattern: some suffix position matches. -/
def searchDraft (table_up : List Char) : List Char → Bool
  | [] => hasDraftAt table_up []
  | c :: t => hasDraftAt table_up (c :: t) || searchDraft table_up t

/-- `\b<word>\b` (word made of `\w` characters only) anchored at the head:
the characters match case-insensitively and the following character, if
any, is not a word character.  (The boundary before the word is checked by
the caller.) -/
def wordAt (w : List Char) (t : List Char) : Bool :=
  match matchLitCI w t with
  | none => false
  | some (_, r) =>
    match r with
    | [] => true
    | c :: _ => !isWordChar c

/-- Leftmost `re.search(r"\b<word>\b", …, re.IGNORECASE)`: scan positions
left to right carrying whether the previous character was a word
character (the left `\b`). -/
def findWordAux (w : List Char) : Bool → Nat → List Char → Option Nat
  | _, _, [] => none
  | prevW, i, c :: rest =>
    if !prevW && wordAt w (c :: rest) then some i
    else findWordAux w (isWordChar c) (i + 1) rest

/-- Start offset of the leftmost boundary-delimited occurrence of `w`. -/
def findWordCI (w : List Char) (t : List Char) : Option Nat :=
  findWordAux w false 0 t

/-- Python `str.rstrip(".")`: drop the trailing run of periods. -/
def rstripDots (l : List Char) : List Char :=
  (l.reverse.dropWhile (· == '.')).reverse

/-- `ensure_draft_filter` from `app.py`: for the two governed tables,
if the `<TABLE>-DRAFT` filter is not already present, insert
` <TABLE>-DRAFT = SPACE AND` after the first `\bWHERE\b`, or
` WHERE <TABLE>-DRAFT = SPACE ` before the first `\bINTO\b`, or append
` WHERE <TABLE>-DRAFT = SPACE.` after stripping trailing periods.
(The Python guard is `if table_up not in {…}: return`, written here with
the branches swapped.) -/
def ensure_draft_filter (sel_stmt : List Char) (table : List Char) : List Char :=
  let table_up := upper table
  if table_up = "VBRK".data ∨ table_up = "VBRP".data then
    if searchDraft table_up sel_stmt then sel_stmt
    else
      match findWordCI "WHERE".data sel_stmt with
      | some i =>
        -- where_match.end() = i + 5
        sel_stmt.take (i + 5) ++ (' ' :: (table_up ++ "-DRAFT = SPACE AND".data))
          ++ sel_stmt.drop (i + 5)
      | none =>
        match findWordCI "INTO".data sel_stmt with
        | some j =>
          sel_stmt.take j ++ (" WHERE ".data ++ table_up ++ "-DRAFT = SPACE ".data)
            ++ sel_stmt.drop j
        | none =>
          rstripDots sel_stmt ++ (" WHERE ".data ++ table_up ++ "-DRAFT = SPACE.".data)
  else sel_stmt

/-- `re.sub(r"\s+", " ", stmt)`: collapse every whitespace run (newlines
included) to a single space. -/
def collapseWs : List Char → List Char
  | [] => []
  | [c] => if isSpace c then [' '] else [c]
  | c :: d :: rest =>
    if isSpace c && isSpace d then collapseWs (d :: rest)
    else (if isSpace c then ' ' else c) :: collapseWs (d :: rest)

/-- Python `str.strip()`. -/
def pyStrip (l : List Char) : List Char :=
  ((l.dropWhile isSpace).reverse.dropWhile isSpace).reverse

/-- `build_replacement_stmt`: inject the filter, then normalise
whitespace to single spaces and trim. -/
def build_replacement_stmt (sel_text : List Char) (table : List Char)
    (_target_type : String) (_target_name : List Char) : List Char :=
  pyStrip (collapseWs (ensure_draft_filter sel_text table))

/-- Stable insertion into a list sorted by descending start offset:
`x` goes before the first element with a strictly smaller key, so
elements with equal keys keep their original order — the behaviour of
Python's stable `sorted(..., key=lambda x: x[0][0], reverse=True)`. -/
def insertDesc (x : (Nat × Nat) × List Char) :
    List ((Nat × Nat) × List Char) → List ((Nat × Nat) × List Char)
  | [] => [x]
  | y :: ys => if y.1.1 < x.1.1 then x :: y :: ys else y :: insertDesc x ys

/-- `sorted(repls, key=lambda x: x[0][0], reverse=True)`. -/
def sortDesc (l : List ((Nat × Nat) × List Char)) : List ((Nat × Nat) × List Char) :=
  l.foldl (fun acc x => insertDesc x acc) []

/-- `apply_span_replacements`: apply edits right to left by
slice-and-splice (`out[:s] + r + out[e:]`). -/
def apply_span_replacements (source : List Char)
    (repls : List ((Nat × Nat) × List Char)) : List Char :=
  (sortDesc repls).foldl
    (fun out sr => out.take sr.1.1 ++ sr.2 ++ out.drop sr.1.2) source

/-- The request model `Unit` (pydantic): identifying metadata plus the
optional code body. -/
structure Unit where
  pgm_name : List Char
  inc_name : List Char
  type : List Char
  name : Option (List Char) := none
  class_implementation : Option (List Char) := none
  start_line : Option Int := none
  end_line : Option Int := none
  code : Option (List Char) := some []
  deriving Repr, DecidableEq

/-- One entry of `selects_metadata` (`sel_info` in `remediate_array`). -/
structure SelInfo where
  table : List Char
  target_type : String
  target_name : List Char
  start_char_in_unit : Nat
  end_char_in_unit : Nat
  used_fields : List (List Char)
  ambiguous : Bool
  suggested_fields : Option (List (List Char))
  suggested_statement : Option (List Char)
  deriving Repr, DecidableEq

/-- The body of the per-statement loop in `remediate_array`: build the
base record, and for a governed table whose rewritten statement differs
from the matched text, record the suggestion and the pending edit. -/
def processSel (sel : Located) : SelInfo × Option ((Nat × Nat) × List Char) :=
  let base : SelInfo :=
    { table := sel.table, target_type := sel.target_type, target_name := sel.target_name,
      start_char_in_unit := sel.span.1, end_char_in_unit := sel.span.2,
      used_fields := [], ambiguous := false, suggested_fields := none,
      suggested_statement := none }
  if upper sel.table = "VBRK".data ∨ upper sel.table = "VBRP".data then
    let new_stmt := build_replacement_stmt sel.text sel.table sel.target_type sel.target_name
    if new_stmt ≠ sel.text then
      ({ base with suggested_statement := some new_stmt }, some (sel.span, new_stmt))
    else (base, none)
  else (base, none)

/-- The per-unit output: the unit's own serialized fields plus `selects`.
`remediate_array` adds no other key (in particular no `remediated_code`). -/
structure UnitResult where
  pgm_name : List Char
  inc_name : List Char
  type : List Char
  name : Option (List Char)
  class_implementation : Option (List Char)
  start_line : Option Int
  end_line : Option Int
  code : Option (List Char)
  selects : List SelInfo
  deriving Repr, DecidableEq

/-- `src = u.code or ""`. -/
def unitSrc (u : Unit) : List Char :=
  match u.code with
  | some c => c
  | none => []

/-- The endpoint body `remediate_array`: per unit, locate the statements,
build the metadata records and the edit list, apply the span editor to the
original text (the result `_rewritten` is discarded, exactly as in the
source: `_ = apply_span_replacements(src, replacements)`), and return the
unit's fields plus the metadata. -/
def remediate_array (units : List Unit) : List UnitResult :=
  units.map fun u =>
    let src := unitSrc u
    let selects := find_selects src
    let pairs := selects.map processSel
    let selects_metadata := pairs.map Prod.fst
    let replacements := pairs.filterMap Prod.snd
    let _rewritten := apply_span_replacements src replacements
    { pgm_name := u.pgm_name, inc_name := u.inc_name, type := u.type, name := u.name,
      class_implementation := u.class_implementation, start_line := u.start_line,
      end_line := u.end_line, code := u.code, selects := selects_metadata }

/-- Python half-open slice `text[a:b]` for `0 ≤ a ≤ b`. -/
def listSlice (l : List Char) (a b : Nat) : List Char :=
  (l.drop a).take (b - a)

/-- Number of (possibly overlapping) occurrences of `p` as a contiguous
substring of `s`, counted by start position — the formalisation of "the
output contains exactly one occurrence of `<TABLE>-DRAFT = SPACE`". -/
def countOcc (p : List Char) : List Char → Nat
  | [] => 0
  | c :: rest => (if p.isPrefixOf (c :: rest) then 1 else 0) + countOcc p rest

/-- `blocks p c = true` certifies that `p` is not a prefix of `c ++ b`
for ANY continuation `b`: either `c` is at least as long as `p` and `p`
is not a prefix of `c`, or `c` is shorter and disagrees with the start
of `p`. -/
def blocks (p c : List Char) : Bool :=
  if c.length < p.length then !(p.take c.length == c) else !(p.isPrefixOf c)

end App

open App

/-- **C9.** Applying the Span Editor (`apply_span_replacements`) to any
text with an empty edit list returns that text unchanged. -/
theorem c9_span_editor_empty_edits (source : List Char) :
    apply_span_replacements source [] = source := rfl

/-- **C2 (counterexample).** On the unit whose body is
`SELECT * FROM VBRK INTO TABLE LT_VBRK.`, the recorded
`suggested_statement` is NOT the spec's
`SELECT * FROM VBRK WHERE VBRK-DRAFT = SPACE INTO TABLE LT_VBRK.`:
the code builds the suggestion from the `full` capture group, which
excludes the terminating period. -/
theorem c2_counterexample :
    (remediate_array
        [{ pgm_name := "P1".data, inc_name := "I1".data, type := "PROG".data,
           code := some "SELECT * FROM VBRK INTO TABLE LT_VBRK.".data }]).map
        (fun r => r.selects.map (fun s => s.suggested_statement))
      ≠ [[some "SELECT * FROM VBRK WHERE VBRK-DRAFT = SPACE INTO TABLE LT_VBRK.".data]] := by
  decide

/-- **C2 (amended).** Processing a code unit whose body is exactly
`SELECT * FROM VBRK INTO TABLE LT_VBRK.` yields exactly one record with
table `VBRK`, target type `itab`, span `(0, 38)`, and suggested
statement `SELECT * FROM VBRK WHERE VBRK-DRAFT = SPACE INTO TABLE
LT_VBRK` — without a terminating period. -/
theorem c2_amended :
    remediate_array
        [{ pgm_name := "P1".data, inc_name := "I1".data, type := "PROG".data,
           code := some "SELECT * FROM VBRK INTO TABLE LT_VBRK.".data }]
      = [{ pgm_name := "P1".data, inc_name := "I1".data, type := "PROG".data,
           name := none, class_implementation := none, start_line := none, end_line := none,
           code := some "SELECT * FROM VBRK INTO TABLE LT_VBRK.".data,
           selects := [{ table := "VBRK".data, target_type := "itab",
                         target_name := "LT_VBRK".data,
                         start_char_in_unit := 0, end_char_in_unit := 38,
                         used_fields := [], ambiguous := false, suggested_fields := none,
                         suggested_statement :=
                           some "SELECT * FROM VBRK WHERE VBRK-DRAFT = SPACE INTO TABLE LT_VBRK".data }] }] := by
  decide

/-- **C3 (counterexample).** On
`SELECT * FROM VBRP WHERE MATNR = '1'. INTO TABLE LT.` the Locator does
NOT yield the empty match list: the DOTALL lazy `middle` region crosses
the earlier period, so the whole text matches. -/
theorem c3_counterexample :
    find_selects "SELECT * FROM VBRP WHERE MATNR = '1'. INTO TABLE LT.".data ≠ [] := by
  decide

/-- **C3 (amended).** On
`SELECT * FROM VBRP WHERE MATNR = '1'. INTO TABLE LT.` the Locator
yields exactly one match spanning the entire text: the `middle` region
may cross a period occurring before the INTO clause, and the statement
terminates at the first period after the INTO clause. -/
theorem c3_amended :
    find_selects "SELECT * FROM VBRP WHERE MATNR = '1'. INTO TABLE LT.".data
      = [{ text := "SELECT * FROM VBRP WHERE MATNR = '1'. INTO TABLE LT".data,
           table := "VBRP".data, target_type := "itab", target_name := "LT".data,
           span := (0, 52) }] := by
  decide

/-- **C10.** A governed-table statement that already contains the draft
filter is left unchanged by the Injector, yet the processor records a
non-null `suggested_statement`: the matched text contains a newline, so
the unconditional whitespace normalisation makes the candidate differ
from the matched text and a whitespace-only rewrite is reported. -/
theorem c10_whitespace_only_suggestion :
    ensure_draft_filter "SELECT * FROM VBRK WHERE VBRK-DRAFT = SPACE\nINTO TABLE LT".data
        "VBRK".data
      = "SELECT * FROM VBRK WHERE VBRK-DRAFT = SPACE\nINTO TABLE LT".data
    ∧ (remediate_array
          [{ pgm_name := "P1".data, inc_name := "I1".data, type := "PROG".data,
             code := some "SELECT * FROM VBRK WHERE VBRK-DRAFT = SPACE\nINTO TABLE LT.".data }]).map
          (fun r => r.selects.map (fun s => s.suggested_statement))
        = [[some "SELECT * FROM VBRK WHERE VBRK-DRAFT = SPACE INTO TABLE LT".data]] := by
  exact ⟨by decide, by decide⟩

/-- **C6.** A located statement whose table is not VBRK/VBRP
(case-insensitively) gets no suggested statement and no replacement
edit, and the Injector returns any statement text unchanged for such a
table. -/
theorem c6_nongoverned_passthrough (sel : Located) (s : List Char)
    (h1 : upper sel.table ≠ "VBRK".data) (h2 : upper sel.table ≠ "VBRP".data) :
    (processSel sel).1.suggested_statement = none
    ∧ (processSel sel).2 = none
    ∧ ensure_draft_filter s sel.table = s := by
  have hg : ¬(upper sel.table = "VBRK".data ∨ upper sel.table = "VBRP".data) := by
    rintro (h | h)
    · exact h1 h
    · exact h2 h
  refine ⟨?_, ?_, ?_⟩ <;> simp [processSel, ensure_draft_filter, hg]

/-- Witness for C6 at the non-governed table `MARA`. -/
theorem c6_nongoverned_passthrough_witness :
    (processSel
        { text := "SELECT * FROM MARA INTO TABLE LT_MARA".data, table := "MARA".data,
          target_type := "itab", target_name := "LT_MARA".data,
          span := (0, 38) }).1.suggested_statement = none
    ∧ (processSel
        { text := "SELECT * FROM MARA INTO TABLE LT_MARA".data, table := "MARA".data,
          target_type := "itab", target_name := "LT_MARA".data, span := (0, 38) }).2 = none
    ∧ ensure_draft_filter "SELECT * FROM MARA WHERE X = 1".data "MARA".data
        = "SELECT * FROM MARA WHERE X = 1".data :=
  c6_nongoverned_passthrough
    { text := "SELECT * FROM MARA INTO TABLE LT_MARA".data, table := "MARA".data,
      target_type := "itab", target_name := "LT_MARA".data, span := (0, 38) }
    "SELECT * FROM MARA WHERE X = 1".data (by decide) (by decide)

namespace App

theorem matchLitCI_sound {p t x r : List Char} (h : matchLitCI p t = some (x, r)) :
    t = x ++ r := by
  induction p generalizing t x r with
  | nil =>
    simp only [matchLitCI, Option.some.injEq, Prod.mk.injEq] at h
    rw [← h.1, ← h.2]
    rfl
  | cons p ps ih =>
    cases t with
    | nil => simp [matchLitCI] at h
    | cons c cs =>
      simp only [matchLitCI] at h
      split at h
      · cases hm : matchLitCI ps cs with
        | none => rw [hm] at h; simp at h
        | some pr =>
          obtain ⟨x', r'⟩ := pr
          rw [hm] at h
          simp only [Option.some.injEq, Prod.mk.injEq] at h
          rw [← h.1, ← h.2]
          simpa using ih hm
      · simp at h

theorem takeWs1_sound {t x r : List Char} (h : takeWs1 t = some (x, r)) : t = x ++ r := by
  simp only [takeWs1] at h
  split at h
  · simp at h
  · simp only [Option.some.injEq, Prod.mk.injEq] at h
    rw [← h.1, ← h.2]
    exact (List.takeWhile_append_dropWhile isSpace t).symm

theorem takeWord1_sound {t x r : List Char} (h : takeWord1 t = some (x, r)) : t = x ++ r := by
  simp only [takeWord1] at h
  split at h
  · simp at h
  · simp only [Option.some.injEq, Prod.mk.injEq] at h
    rw [← h.1, ← h.2]
    exact (List.takeWhile_append_dropWhile isWordChar t).symm

theorem splitAtDot_sound {t a b : List Char} (h : splitAtDot t = some (a, b)) :
    t = a ++ '.' :: b := by
  induction t generalizing a b with
  | nil => simp [splitAtDot] at h
  | cons c cs ih =>
    simp only [splitAtDot] at h
    split at h
    next hc =>
      simp only [Option.some.injEq, Prod.mk.injEq] at h
      rw [← h.1, ← h.2, hc]
      rfl
    next hc =>
      cases hm : splitAtDot cs with
      | none => rw [hm] at h; simp at h
      | some pr =>
        obtain ⟨a', b'⟩ := pr
        rw [hm] at h
        simp only [Option.some.injEq, Prod.mk.injEq] at h
        rw [← h.1, ← h.2]
        simpa using ih hm

theorem matchIntoTab_sound {t piece nm r : List Char} {ty : String}
    (h : matchIntoTab t = some (piece, ty, nm, r)) : t = piece ++ r := by
  cases h1 : matchLitCI "INTO".data t with
  | none => simp [matchIntoTab, h1] at h
  | some p1 =>
    obtain ⟨a, r1⟩ := p1
    cases h2 : takeWs1 r1 with
    | none => simp [matchIntoTab, h1, h2] at h
    | some p2 =>
      obtain ⟨b, r2⟩ := p2
      cases h3 : matchLitCI "TABLE".data r2 with
      | none => simp [matchIntoTab, h1, h2, h3] at h
      | some p3 =>
        obtain ⟨c, r3⟩ := p3
        cases h4 : takeWs1 r3 with
        | none => simp [matchIntoTab, h1, h2, h3, h4] at h
        | some p4 =>
          obtain ⟨d, r4⟩ := p4
          cases h5 : takeWord1 r4 with
          | none => simp [matchIntoTab, h1, h2, h3, h4, h5] at h
          | some p5 =>
            obtain ⟨nm', r5⟩ := p5
            simp only [matchIntoTab, h1, h2, h3, h4, h5, Option.some.injEq,
              Prod.mk.injEq] at h
            obtain ⟨hp, _, _, hr⟩ := h
            rw [← hp, ← hr]
            rw [matchLitCI_sound h1, takeWs1_sound h2, matchLitCI_sound h3,
              takeWs1_sound h4, takeWord1_sound h5]
            simp [List.append_assoc]

theorem matchIntoWa_sound {t piece nm r : List Char} {ty : String}
    (h : matchIntoWa t = some (piece, ty, nm, r)) : t = piece ++ r := by
  cases h1 : matchLitCI "INTO".data t with
  | none => simp [matchIntoWa, h1] at h
  | some p1 =>
    obtain ⟨a, r1⟩ := p1
    cases h2 : takeWs1 r1 with
    | none => simp [matchIntoWa, h1, h2] at h
    | some p2 =>
      obtain ⟨b, r2⟩ := p2
      cases h3 : takeWord1 r2 with
      | none => simp [matchIntoWa, h1, h2, h3] at h
      | some p3 =>
        obtain ⟨nm', r3⟩ := p3
        simp only [matchIntoWa, h1, h2, h3, Option.some.injEq, Prod.mk.injEq] at h
        obtain ⟨hp, _, _, hr⟩ := h
        rw [← hp, ← hr]
        rw [matchLitCI_sound h1, takeWs1_sound h2, takeWord1_sound h3]
        simp [List.append_assoc]

theorem matchIntoClause_sound {t piece nm r : List Char} {ty : String}
    (h : matchIntoClause t = some (piece, ty, nm, r)) : t = piece ++ r := by
  simp only [matchIntoClause] at h
  cases h1 : matchIntoTab t with
  | some p1 =>
    rw [h1] at h
    obtain ⟨piece', ty', nm', r'⟩ := p1
    simp only [Option.some.injEq, Prod.mk.injEq] at h
    obtain ⟨hp, _, _, hr⟩ := h
    rw [← hp, ← hr]
    exact matchIntoTab_sound h1
  | none =>
    rw [h1] at h
    exact matchIntoWa_sound h

theorem middleLoop_sound {t : List Char} {m : MidRes} (h : middleLoop t = some m) :
    t = m.middle ++ m.intoPiece ++ m.rest := by
  induction t generalizing m with
  | nil => simp [middleLoop] at h
  | cons c cs ih =>
    cases hic : matchIntoClause (c :: cs) with
    | some q =>
      obtain ⟨piece, ty, nm, r⟩ := q
      by_cases hd : (splitAtDot r).isSome = true
      · simp only [middleLoop, hic] at h
        rw [if_pos hd] at h
        simp only [Option.some.injEq] at h
        subst h
        simpa using matchIntoClause_sound hic
      · cases hm : middleLoop cs with
        | none =>
          simp only [middleLoop, hic, hm] at h
          rw [if_neg hd] at h
          simp at h
        | some m' =>
          simp only [middleLoop, hic, hm] at h
          rw [if_neg hd] at h
          simp only [Option.some.injEq] at h
          subst h
          simpa [List.append_assoc] using congrArg (c :: ·) (ih hm)
    | none =>
      cases hm : middleLoop cs with
      | none => simp [middleLoop, hic, hm] at h
      | some m' =>
        simp only [middleLoop, hic, hm, Option.some.injEq] at h
        subst h
        simpa [List.append_assoc] using congrArg (c :: ·) (ih hm)

theorem tableLoopAux_sound {rev t : List Char} {res : TLRes}
    (h : tableLoopAux rev t = some res) :
    rev.reverse ++ t = res.table ++ res.middle ++ res.intoPiece ++ res.rest := by
  induction rev generalizing t res with
  | nil => simp [tableLoopAux] at h
  | cons c rest ih =>
    simp only [tableLoopAux] at h
    cases hm : middleLoop t with
    | some m =>
      rw [hm] at h
      simp only [Option.some.injEq] at h
      rw [← h]
      rw [middleLoop_sound hm]
      simp [List.append_assoc]
    | none =>
      rw [hm] at h
      have := ih h
      rw [List.reverse_cons, List.append_assoc]
      simpa using this

theorem matchSingleStar_sound {t x r : List Char} (h : matchSingleStar t = some (x, r)) :
    t = x ++ r := by
  cases h1 : matchLitCI "SINGLE".data t with
  | none => simp [matchSingleStar, h1] at h
  | some p1 =>
    obtain ⟨a, r1⟩ := p1
    cases h2 : takeWs1 r1 with
    | none => simp [matchSingleStar, h1, h2] at h
    | some p2 =>
      obtain ⟨b, r2⟩ := p2
      cases h3 : matchLitCI "*".data r2 with
      | none => simp [matchSingleStar, h1, h2, h3] at h
      | some p3 =>
        obtain ⟨c, r3⟩ := p3
        simp only [matchSingleStar, h1, h2, h3, Option.some.injEq, Prod.mk.injEq] at h
        rw [← h.1, ← h.2]
        rw [matchLitCI_sound h1, takeWs1_sound h2, matchLitCI_sound h3]
        simp [List.append_assoc]

theorem matchStar_sound {t x r : List Char} (h : matchStar t = some (x, r)) :
    t = x ++ r := by
  simp only [matchStar] at h
  cases h1 : matchSingleStar t with
  | some p1 =>
    rw [h1] at h
    obtain ⟨x', r'⟩ := p1
    simp only [Option.some.injEq, Prod.mk.injEq] at h
    rw [← h.1, ← h.2]
    exact matchSingleStar_sound h1
  | none =>
    rw [h1] at h
    exact matchLitCI_sound h

/-- Every successful anchored match decomposes the input as the `full`
group followed by the terminating period and the remainder. -/
theorem matchCore_sound {u : List Char} {sr : SelRes} (h : matchCore u = some sr) :
    u = sr.full ++ '.' :: sr.rest := by
  cases h1 : matchLitCI "SELECT".data u with
  | none => simp [matchCore, h1] at h
  | some p1 =>
    obtain ⟨x1, r1⟩ := p1
    cases h2 : takeWs1 r1 with
    | none => simp [matchCore, h1, h2] at h
    | some p2 =>
      obtain ⟨w1, r2⟩ := p2
      cases h3 : matchStar r2 with
      | none => simp [matchCore, h1, h2, h3] at h
      | some p3 =>
        obtain ⟨x2, r3⟩ := p3
        cases h4 : takeWs1 r3 with
        | none => simp [matchCore, h1, h2, h3, h4] at h
        | some p4 =>
          obtain ⟨w2, r4⟩ := p4
          cases h5 : matchLitCI "FROM".data r4 with
          | none => simp [matchCore, h1, h2, h3, h4, h5] at h
          | some p5 =>
            obtain ⟨x3, r5⟩ := p5
            cases h6 : takeWs1 r5 with
            | none => simp [matchCore, h1, h2, h3, h4, h5, h6] at h
            | some p6 =>
              obtain ⟨w3, r6⟩ := p6
              cases h7 : takeWord1 r6 with
              | none => simp [matchCore, h1, h2, h3, h4, h5, h6, h7] at h
              | some p7 =>
                obtain ⟨tw, r7⟩ := p7
                cases h8 : tableLoopAux tw.reverse r7 with
                | none => simp [matchCore, h1, h2, h3, h4, h5, h6, h7, h8] at h
                | some res =>
                  cases h9 : splitAtDot res.rest with
                  | none => simp [matchCore, h1, h2, h3, h4, h5, h6, h7, h8, h9] at h
                  | some p9 =>
                    obtain ⟨tail, rest⟩ := p9
                    simp only [matchCore, h1, h2, h3, h4, h5, h6, h7, h8, h9,
                      Option.some.injEq] at h
                    rw [← h]
                    have e8 := tableLoopAux_sound h8
                    rw [List.reverse_reverse] at e8
                    rw [matchLitCI_sound h1, takeWs1_sound h2, matchStar_sound h3,
                      takeWs1_sound h4, matchLitCI_sound h5, takeWs1_sound h6,
                      takeWord1_sound h7]
                    have e9 := splitAtDot_sound h9
                    simp only [List.append_assoc]
                    rw [e8, e9]
                    simp [List.append_assoc]

end App

/-- Characterisation of the scanner's output: every produced record comes
from a successful anchored match at some offset `j ≥ i`, and carries that
match's captures and span. -/
theorem mem_findSelectsAux {txt : List Char} {sel : Located} :
    ∀ {fuel i : Nat}, sel ∈ findSelectsAux txt fuel i →
      ∃ j r, i ≤ j ∧ matchCore (txt.drop j) = some r
        ∧ sel = { text := r.full, table := r.table, target_type := r.target_type,
                  target_name := r.target_name, span := (j, j + r.full.length + 1) } := by
  intro fuel
  induction fuel with
  | zero => intro i h; simp [findSelectsAux] at h
  | succ fuel ih =>
    intro i h
    simp only [findSelectsAux] at h
    split at h
    · cases hm : matchCore (txt.drop i) with
      | some r =>
        rw [hm] at h
        rcases List.mem_cons.mp h with h' | h'
        · exact ⟨i, r, Nat.le_refl i, hm, h'⟩
        · obtain ⟨j, r', hij, hmr, hs⟩ := ih h'
          exact ⟨j, r', by omega, hmr, hs⟩
      | none =>
        rw [hm] at h
        obtain ⟨j, r', hij, hmr, hs⟩ := ih h
        exact ⟨j, r', Nat.le_trans (Nat.le_succ i) hij, hmr, hs⟩
    · simp at h

theorem take_len_add (a b : List Char) (n : Nat) :
    (a ++ b).take (a.length + n) = a ++ b.take n := by
  induction a with
  | nil => simp
  | cons c cs ih => simpa [Nat.succ_add] using ih

/-- **C1 (counterexample).** On `SELECT * FROM VBRK INTO TABLE LT.` the
single located statement has `text[start:end] ≠ recorded text`: the span
`m.span(0)` includes the terminating period while the recorded
`m.group("full")` excludes it. -/
theorem c1_counterexample :
    ¬ (∀ sel ∈ find_selects "SELECT * FROM VBRK INTO TABLE LT.".data,
        listSlice "SELECT * FROM VBRK INTO TABLE LT.".data sel.span.1 sel.span.2 = sel.text) := by
  decide

/-- **C1 (amended).** For every located statement, the slice
`text[start:end]` over the original text equals the recorded full text
*followed by the terminating period* (equivalently, `text[start:end-1]`
is the recorded text): the span includes the period, the recorded text
does not. -/
theorem c1_amended (txt : List Char) (sel : Located) (h : sel ∈ find_selects txt) :
    listSlice txt sel.span.1 sel.span.2 = sel.text ++ ['.'] := by
  obtain ⟨j, r, -, hm, hs⟩ := mem_findSelectsAux h
  subst hs
  have hu := matchCore_sound hm
  simp only [listSlice]
  have harith : j + r.full.length + 1 - j = r.full.length + 1 := by omega
  rw [harith, hu]
  simpa using take_len_add r.full ('.' :: r.rest) 1

/-- Witness for C1 (amended) at a concrete match. -/
theorem c1_amended_witness :
    ({ text := "SELECT * FROM VBRK INTO TABLE LT".data, table := "VBRK".data,
       target_type := "itab", target_name := "LT".data, span := (0, 33) } : Located)
        ∈ find_selects "SELECT * FROM VBRK INTO TABLE LT.".data
    ∧ listSlice "SELECT * FROM VBRK INTO TABLE LT.".data 0 33
        = "SELECT * FROM VBRK INTO TABLE LT".data ++ ['.'] :=
  ⟨by decide,
   c1_amended "SELECT * FROM VBRK INTO TABLE LT.".data
     { text := "SELECT * FROM VBRK INTO TABLE LT".data, table := "VBRK".data,
       target_type := "itab", target_name := "LT".data, span := (0, 33) }
     (by decide)⟩

/-- **C7.** For every input text the located statements are pairwise
non-overlapping and in left-to-right order: each statement's start offset
is at least the previous statement's end offset, and each span is
well-formed (`start ≤ end`). -/
theorem c7_spans_ordered_nonoverlapping (txt : List Char) :
    List.Pairwise (fun a b => a.span.2 ≤ b.span.1) (find_selects txt)
    ∧ ∀ sel ∈ find_selects txt, sel.span.1 ≤ sel.span.2 := by
  constructor
  · have key : ∀ fuel i, List.Pairwise (fun a b : Located => a.span.2 ≤ b.span.1)
        (findSelectsAux txt fuel i) := by
      intro fuel
      induction fuel with
      | zero => intro i; simp [findSelectsAux]
      | succ fuel ih =>
        intro i
        simp only [findSelectsAux]
        split
        · cases hm : matchCore (txt.drop i) with
          | some r =>
            refine List.Pairwise.cons ?_ (ih _)
            intro b hb
            obtain ⟨j, r', hij, -, hs⟩ := mem_findSelectsAux hb
            rw [hs]
            exact hij
          | none => exact ih _
        · simp
    exact key _ _
  · intro sel h
    obtain ⟨j, r, -, -, hs⟩ := mem_findSelectsAux h
    rw [hs]
    simp
    omega

namespace App

theorem matchLitCI_self (p r : List Char) : matchLitCI p (p ++ r) = some (p, r) := by
  induction p with
  | nil => rfl
  | cons c ps ih =>
    show matchLitCI (c :: ps) (c :: (ps ++ r)) = some (c :: ps, r)
    simp [matchLitCI, ih, ciEq]

/-- The filter-presence test fires on any text of the shape
`<TABLE>-DRAFT` followed by a space and an equality sign. -/
theorem hasDraftAt_parts (tu y : List Char) :
    hasDraftAt tu ((tu ++ "-DRAFT".data) ++ (' ' :: '=' :: y)) = true := by
  unfold hasDraftAt
  rw [matchLitCI_self]
  rfl

theorem searchDraft_of_has {tu t : List Char} (h : hasDraftAt tu t = true) :
    searchDraft tu t = true := by
  cases t with
  | nil => simpa [searchDraft] using h
  | cons c cs => simp [searchDraft, h]

theorem searchDraft_append (a : List Char) {tu t : List Char}
    (h : searchDraft tu t = true) : searchDraft tu (a ++ t) = true := by
  induction a with
  | nil => simpa using h
  | cons c cs ih => simp [searchDraft, ih]

theorem searchDraft_parts (tu x y : List Char) :
    searchDraft tu (x ++ ((tu ++ "-DRAFT".data) ++ (' ' :: '=' :: y))) = true :=
  searchDraft_append x (searchDraft_of_has (hasDraftAt_parts tu y))

/-- The WHERE-branch output of the Injector contains the filter pattern. -/
theorem searchDraft_where_out (tu pre post : List Char) :
    searchDraft tu (pre ++ (' ' :: (tu ++ "-DRAFT = SPACE AND".data)) ++ post) = true := by
  have e : "-DRAFT = SPACE AND".data
      = "-DRAFT".data ++ (' ' :: '=' :: " SPACE AND".data) := by decide
  have h := searchDraft_parts tu (pre ++ [' ']) (" SPACE AND".data ++ post)
  rw [e]
  simpa [List.append_assoc] using h

/-- The INTO-branch output of the Injector contains the filter pattern. -/
theorem searchDraft_into_out (tu pre post : List Char) :
    searchDraft tu
      (pre ++ (" WHERE ".data ++ tu ++ "-DRAFT = SPACE ".data) ++ post) = true := by
  have e : "-DRAFT = SPACE ".data
      = "-DRAFT".data ++ (' ' :: '=' :: " SPACE ".data) := by decide
  have h := searchDraft_parts tu (pre ++ " WHERE ".data) (" SPACE ".data ++ post)
  rw [e]
  simpa [List.append_assoc] using h

/-- The fallback-branch output of the Injector contains the filter pattern. -/
theorem searchDraft_rstrip_out (tu pre : List Char) :
    searchDraft tu (pre ++ (" WHERE ".data ++ tu ++ "-DRAFT = SPACE.".data)) = true := by
  have e : "-DRAFT = SPACE.".data
      = "-DRAFT".data ++ (' ' :: '=' :: " SPACE.".data) := by decide
  have h := searchDraft_parts tu (pre ++ " WHERE ".data) " SPACE.".data
  rw [e]
  simpa [List.append_assoc] using h

/-- A statement the presence check accepts passes through the Injector
unchanged (for a governed table). -/
theorem ensure_eq_self_of_search {s' table : List Char}
    (hg : upper table = "VBRK".data ∨ upper table = "VBRP".data)
    (hsd : searchDraft (upper table) s' = true) :
    ensure_draft_filter s' table = s' := by
  simp [ensure_draft_filter, hg, hsd]

end App

/-- **C4.** The Filter Injector is idempotent: for every statement text
and every table name, applying `ensure_draft_filter` twice yields the
same result as applying it once — an already-filtered statement is
detected by the presence check and returned unchanged, and each of the
three insertion branches produces a text the presence check accepts. -/
theorem c4_injector_idempotent (s table : List Char) :
    ensure_draft_filter (ensure_draft_filter s table) table = ensure_draft_filter s table := by
  by_cases hg : upper table = "VBRK".data ∨ upper table = "VBRP".data
  · by_cases hd : searchDraft (upper table) s = true
    · simp [ensure_draft_filter, hg, hd]
    · have hd' : searchDraft (upper table) s = false := by simpa using hd
      cases hw : findWordCI "WHERE".data s with
      | some i =>
        have hout : ensure_draft_filter s table
            = s.take (i + 5) ++ (' ' :: (upper table ++ "-DRAFT = SPACE AND".data))
                ++ s.drop (i + 5) := by
          simp [ensure_draft_filter, hg, hd', hw]
        rw [hout]
        exact ensure_eq_self_of_search hg
          (searchDraft_where_out (upper table) (s.take (i + 5)) (s.drop (i + 5)))
      | none =>
        cases hI : findWordCI "INTO".data s with
        | some j =>
          have hout : ensure_draft_filter s table
              = s.take j ++ (" WHERE ".data ++ upper table ++ "-DRAFT = SPACE ".data)
                  ++ s.drop j := by
            simp [ensure_draft_filter, hg, hd', hw, hI]
          rw [hout]
          exact ensure_eq_self_of_search hg
            (searchDraft_into_out (upper table) (s.take j) (s.drop j))
        | none =>
          have hout : ensure_draft_filter s table
              = rstripDots s ++ (" WHERE ".data ++ upper table ++ "-DRAFT = SPACE.".data) := by
            simp [ensure_draft_filter, hg, hd', hw, hI]
          rw [hout]
          exact ensure_eq_self_of_search hg
            (searchDraft_rstrip_out (upper table) (rstripDots s))
  · simp [ensure_draft_filter, hg]

/-- **C8.** In metadata mode the per-unit output is exactly the unit's own
fields plus the `selects` metadata computed by the Locator and Injector:
the Span Editor's rewritten text (computed as `_rewritten` inside
`remediate_array`) never surfaces, and the output record type
(`UnitResult`) carries no `remediated_code` field. -/
theorem c8_metadata_mode_frame (units : List App.Unit) :
    remediate_array units = units.map (fun u =>
      { pgm_name := u.pgm_name, inc_name := u.inc_name, type := u.type, name := u.name,
        class_implementation := u.class_implementation, start_line := u.start_line,
        end_line := u.end_line, code := u.code,
        selects := (find_selects (unitSrc u)).map (fun sel => (processSel sel).1) }) := by
  unfold remediate_array
  have h : (fun u : App.Unit =>
      let src := unitSrc u
      let selects := find_selects src
      let pairs := selects.map processSel
      let selects_metadata := pairs.map Prod.fst
      let replacements := pairs.filterMap Prod.snd
      let _rewritten := apply_span_replacements src replacements
      ({ pgm_name := u.pgm_name, inc_name := u.inc_name, type := u.type, name := u.name,
         class_implementation := u.class_implementation, start_line := u.start_line,
         end_line := u.end_line, code := u.code,
         selects := selects_metadata } : UnitResult))
      = (fun u : App.Unit =>
      { pgm_name := u.pgm_name, inc_name := u.inc_name, type := u.type, name := u.name,
        class_implementation := u.class_implementation, start_line := u.start_line,
        end_line := u.end_line, code := u.code,
        selects := (find_selects (unitSrc u)).map (fun sel => (processSel sel).1) }) := by
    funext u
    simp [List.map_map, Function.comp]
  rw [h]

namespace App

theorem prefix_of_prefix_append {p c b : List Char} (h : p <+: c ++ b)
    (hle : p.length ≤ c.length) : p <+: c := by
  obtain ⟨t, ht⟩ := h
  have h1 : (c ++ b).take p.length = c.take p.length := by
    rw [List.take_append_eq_append_take]
    have h0 : p.length - c.length = 0 := by omega
    rw [h0]
    simp
  have h2 : (p ++ t).take p.length = p := List.take_left p t
  rw [ht] at h2
  rw [h1] at h2
  rw [← h2]
  exact List.take_prefix _ _

theorem drop_prefix_of_prefix_append {p c b : List Char} (h : p <+: c ++ b)
    (hlt : c.length < p.length) : (p.drop c.length) <+: b := by
  obtain ⟨t, ht⟩ := h
  have h1 : (p ++ t).drop c.length = p.drop c.length ++ t := by
    rw [List.drop_append_of_le_length (by omega)]
  have h2 : (c ++ b).drop c.length = b := List.drop_left c b
  rw [ht] at h1
  rw [h2] at h1
  exact ⟨t, h1.symm⟩

theorem isPrefixOf_false_of_blocks {p c : List Char} (h : blocks p c = true)
    (b : List Char) : p.isPrefixOf (c ++ b) = false := by
  unfold blocks at h
  split at h
  case isTrue hlt =>
    have hne : ¬(p.take c.length = c) := by simpa using h
    by_contra hcon
    have hp : p <+: c ++ b :=
      List.isPrefixOf_iff_prefix.mp (by simpa using hcon)
    obtain ⟨t, ht⟩ := hp
    apply hne
    have h2 : (p ++ t).take c.length = (c ++ b).take c.length := by rw [ht]
    rw [List.take_append_eq_append_take, List.take_append_eq_append_take] at h2
    have h0 : c.length - p.length = 0 := by omega
    rw [h0] at h2
    simp at h2
    exact h2
  case isFalse hge =>
    have hnp : p.isPrefixOf c = false := by simpa using h
    by_contra hcon
    have hp : p <+: c ++ b :=
      List.isPrefixOf_iff_prefix.mp (by simpa using hcon)
    have hpc : p <+: c := prefix_of_prefix_append hp (by omega)
    rw [List.isPrefixOf_iff_prefix.mpr hpc] at hnp
    cases hnp

end App

namespace App

theorem countOcc_append_eq {p b : List Char} (a : List Char)
    (h : ∀ a' ∈ a.tails, a' ≠ [] → p.isPrefixOf (a' ++ b) = false) :
    countOcc p (a ++ b) = countOcc p b := by
  induction a with
  | nil => rfl
  | cons c cs ih =>
    have h0 : p.isPrefixOf ((c :: cs) ++ b) = false :=
      h (c :: cs) ((List.mem_tails _ _).mpr (List.suffix_refl _)) (by simp)
    have h' : ∀ a' ∈ cs.tails, a' ≠ [] → p.isPrefixOf (a' ++ b) = false := by
      intro a' ha hne
      exact h a' ((List.mem_tails _ _).mpr
        (((List.mem_tails _ _).mp ha).trans (List.suffix_cons c cs))) hne
    rw [List.cons_append] at h0
    simp only [List.cons_append, countOcc, List.append_eq, h0]
    simpa using ih h'

theorem countOcc_cons_self (p X : List Char) (hne : p ≠ []) :
    countOcc p (p ++ X) = 1 + countOcc p (p.drop 1 ++ X) := by
  obtain ⟨c, p', rfl⟩ := List.exists_cons_of_ne_nil hne
  have hpre : (c :: p').isPrefixOf (c :: (p' ++ X)) = true :=
    List.isPrefixOf_iff_prefix.mpr ⟨X, by simp⟩
  simp [countOcc, hpre]

/-- An exact occurrence of the injected condition `<TABLE>-DRAFT = SPACE`
is found by the (more liberal) presence check. -/
theorem hasDraftAt_of_draftP_prefix {tu u : List Char}
    (h : (tu ++ "-DRAFT = SPACE".data).isPrefixOf u = true) :
    hasDraftAt tu u = true := by
  obtain ⟨t, ht⟩ := List.isPrefixOf_iff_prefix.mp h
  have e : "-DRAFT = SPACE".data
      = "-DRAFT".data ++ (' ' :: '=' :: " SPACE".data) := by decide
  have hh := hasDraftAt_parts tu (" SPACE".data ++ t)
  rw [← ht, e]
  simpa [List.append_assoc] using hh

theorem countOcc_draftP_zero {tu s : List Char} (h : searchDraft tu s = false) :
    countOcc (tu ++ "-DRAFT = SPACE".data) s = 0 := by
  induction s with
  | nil => rfl
  | cons c cs ih =>
    have hsplit : hasDraftAt tu (c :: cs) = false ∧ searchDraft tu cs = false := by
      simpa [searchDraft] using h
    have h1 : (tu ++ "-DRAFT = SPACE".data).isPrefixOf (c :: cs) = false := by
      by_contra hc
      have hT : hasDraftAt tu (c :: cs) = true :=
        hasDraftAt_of_draftP_prefix (by simpa using hc)
      rw [hT] at hsplit
      simpa using hsplit.1
    simp [countOcc, h1, ih hsplit.2]

theorem searchDraft_suffix_false {tu s B : List Char} (h : searchDraft tu s = false)
    (hs : B <:+ s) : searchDraft tu B = false := by
  obtain ⟨x, hx⟩ := hs
  by_contra hc
  have hB2 : searchDraft tu B = true := by simpa using hc
  have hT := searchDraft_append x hB2
  rw [hx] at hT
  rw [hT] at h
  cases h

/-- If the exact condition occurs anywhere inside `s`, the presence check
on `s` fires. -/
theorem searchDraft_of_infix {tu s a' : List Char}
    (hpre : (tu ++ "-DRAFT = SPACE".data) <+: a') (hsuf : a' <:+: s) :
    searchDraft tu s = true := by
  obtain ⟨t, ht⟩ := hpre
  obtain ⟨x, y, hxy⟩ := hsuf
  rw [← hxy, ← ht]
  have hh : hasDraftAt tu ((tu ++ "-DRAFT = SPACE".data) ++ (t ++ y)) = true :=
    hasDraftAt_of_draftP_prefix
      (List.isPrefixOf_iff_prefix.mpr ⟨t ++ y, rfl⟩)
  have := searchDraft_append x (searchDraft_of_has hh)
  simpa [List.append_assoc] using this

end App

namespace App

theorem rstripDots_prefix_self (l : List Char) : rstripDots l <+: l := by
  unfold rstripDots
  obtain ⟨x, hx⟩ : List.dropWhile (· == '.') l.reverse <:+ l.reverse :=
    List.dropWhile_suffix _
  refine ⟨x.reverse, ?_⟩
  have h := congrArg List.reverse hx
  simpa [List.reverse_append] using h

/-- Counting occurrences of the injected condition in an output of the
shape `A ++ m ++ P ++ n ++ B` (with `P` the condition itself): given that
the original statement `s` has no occurrence, that `A` is a prefix and
`B` a suffix of `s` (or empty), and the concrete straddle-freeness side
conditions on the glue `m`, `n`, the count is exactly 1. -/
theorem count_one_master (tu s A B m n : List Char)
    (hs : searchDraft tu s = false)
    (hA : A <+: s)
    (hB : B = [] ∨ B <:+ s)
    (hm : ∀ a' ∈ m.tails, a' ≠ [] →
      (tu ++ "-DRAFT = SPACE".data).isPrefixOf
        (a' ++ ((tu ++ "-DRAFT = SPACE".data) ++ n)) = false)
    (hstrad : ∀ k, k < (tu ++ "-DRAFT = SPACE".data).length → 0 < k →
      blocks ((tu ++ "-DRAFT = SPACE".data).drop k)
        (m ++ ((tu ++ "-DRAFT = SPACE".data) ++ n)) = true)
    (hP1 : ∀ a' ∈ ((tu ++ "-DRAFT = SPACE".data).drop 1).tails, a' ≠ [] →
      blocks (tu ++ "-DRAFT = SPACE".data) (a' ++ n) = true)
    (hn : ∀ a' ∈ n.tails, a' ≠ [] → blocks (tu ++ "-DRAFT = SPACE".data) a' = true) :
    countOcc (tu ++ "-DRAFT = SPACE".data)
      (A ++ (m ++ ((tu ++ "-DRAFT = SPACE".data) ++ (n ++ B)))) = 1 := by
  set P := tu ++ "-DRAFT = SPACE".data with hPdef
  have hPne : P ≠ [] := by
    rw [hPdef]
    intro hcontra
    have h2 := (List.append_eq_nil.mp hcontra).2
    have h14 : ("-DRAFT = SPACE".data : List Char) ≠ [] := by decide
    exact h14 h2
  have hstep1 : countOcc P (A ++ (m ++ (P ++ (n ++ B))))
      = countOcc P (m ++ (P ++ (n ++ B))) := by
    apply countOcc_append_eq
    intro a' ha hne
    by_contra hcon
    have hp : P <+: a' ++ (m ++ (P ++ (n ++ B))) :=
      List.isPrefixOf_iff_prefix.mp (by simpa using hcon)
    rcases le_or_lt P.length a'.length with hle | hlt
    · have hpa : P <+: a' := prefix_of_prefix_append hp hle
      have hsuf : a' <:+: s :=
        (((List.mem_tails _ _).mp ha).isInfix).trans hA.isInfix
      have hT : searchDraft tu s = true := searchDraft_of_infix hpa hsuf
      rw [hs] at hT
      cases hT
    · have hdp : P.drop a'.length <+: m ++ (P ++ (n ++ B)) :=
        drop_prefix_of_prefix_append hp hlt
      have hre : m ++ (P ++ (n ++ B)) = (m ++ (P ++ n)) ++ B := by
        simp [List.append_assoc]
      rw [hre] at hdp
      have hk0 : 0 < a'.length := List.length_pos.mpr hne
      have hb := hstrad a'.length hlt hk0
      have hfalse := isPrefixOf_false_of_blocks hb B
      rw [List.isPrefixOf_iff_prefix.mpr hdp] at hfalse
      cases hfalse
  have hstep2 : countOcc P (m ++ (P ++ (n ++ B))) = countOcc P (P ++ (n ++ B)) := by
    apply countOcc_append_eq
    intro a' ha hne
    by_contra hcon
    have hp : P <+: a' ++ (P ++ (n ++ B)) :=
      List.isPrefixOf_iff_prefix.mp (by simpa using hcon)
    have hre : a' ++ (P ++ (n ++ B)) = (a' ++ (P ++ n)) ++ B := by
      simp [List.append_assoc]
    rw [hre] at hp
    have hlen : P.length ≤ (a' ++ (P ++ n)).length := by
      simp only [List.length_append]
      omega
    have hpa : P <+: a' ++ (P ++ n) := prefix_of_prefix_append hp hlen
    have hmf := hm a' ha hne
    rw [List.isPrefixOf_iff_prefix.mpr hpa] at hmf
    cases hmf
  have hstep3 : countOcc P (P ++ (n ++ B)) = 1 + countOcc P (P.drop 1 ++ (n ++ B)) :=
    countOcc_cons_self P (n ++ B) hPne
  have hstep4 : countOcc P (P.drop 1 ++ (n ++ B)) = countOcc P (n ++ B) := by
    apply countOcc_append_eq
    intro a' ha hne
    have hb := hP1 a' ha hne
    have hfalse := isPrefixOf_false_of_blocks hb B
    have hre : a' ++ (n ++ B) = (a' ++ n) ++ B := by simp [List.append_assoc]
    rw [hre]
    exact hfalse
  have hstep5 : countOcc P (n ++ B) = countOcc P B := by
    apply countOcc_append_eq
    intro a' ha hne
    exact isPrefixOf_false_of_blocks (hn a' ha hne) B
  have hstep6 : countOcc P B = 0 := by
    rcases hB with rfl | hBs
    · rfl
    · exact countOcc_draftP_zero (searchDraft_suffix_false hs hBs)
  rw [hstep1, hstep2, hstep3, hstep4, hstep5, hstep6]

end App

/-- **C5.** For every statement text whose table is governed (VBRK or
VBRP, case-insensitively) and that does not already contain the draft
filter, the Injector's output contains exactly one occurrence of the
condition `<TABLE>-DRAFT = SPACE`. -/
theorem c5_exactly_one_occurrence (s table : List Char)
    (hgov : upper table = "VBRK".data ∨ upper table = "VBRP".data)
    (habs : searchDraft (upper table) s = false) :
    countOcc (upper table ++ "-DRAFT = SPACE".data) (ensure_draft_filter s table) = 1 := by
  cases hw : findWordCI "WHERE".data s with
  | some i =>
    have hout : ensure_draft_filter s table
        = s.take (i + 5) ++ (' ' :: (upper table ++ "-DRAFT = SPACE AND".data))
            ++ s.drop (i + 5) := by
      simp [ensure_draft_filter, hgov, habs, hw]
    rw [hout]
    have key := count_one_master (upper table) s (s.take (i + 5)) (s.drop (i + 5))
      [' '] " AND".data habs (List.take_prefix _ _) (Or.inr (List.drop_suffix _ _))
      (by rcases hgov with h | h <;> rw [h] <;> decide)
      (by rcases hgov with h | h <;> rw [h] <;> decide)
      (by rcases hgov with h | h <;> rw [h] <;> decide)
      (by rcases hgov with h | h <;> rw [h] <;> decide)
    have esplit : "-DRAFT = SPACE AND".data
        = "-DRAFT = SPACE".data ++ " AND".data := by decide
    have heq : s.take (i + 5) ++ (' ' :: (upper table ++ "-DRAFT = SPACE AND".data))
          ++ s.drop (i + 5)
        = s.take (i + 5) ++ ([' '] ++ ((upper table ++ "-DRAFT = SPACE".data)
            ++ (" AND".data ++ s.drop (i + 5)))) := by
      rw [esplit]
      simp [List.append_assoc]
    rw [heq]
    exact key
  | none =>
    cases hI : findWordCI "INTO".data s with
    | some j =>
      have hout : ensure_draft_filter s table
          = s.take j ++ (" WHERE ".data ++ upper table ++ "-DRAFT = SPACE ".data)
              ++ s.drop j := by
        simp [ensure_draft_filter, hgov, habs, hw, hI]
      rw [hout]
      have key := count_one_master (upper table) s (s.take j) (s.drop j)
        " WHERE ".data " ".data habs (List.take_prefix _ _)
        (Or.inr (List.drop_suffix _ _))
        (by rcases hgov with h | h <;> rw [h] <;> decide)
        (by rcases hgov with h | h <;> rw [h] <;> decide)
        (by rcases hgov with h | h <;> rw [h] <;> decide)
        (by rcases hgov with h | h <;> rw [h] <;> decide)
      have esplit : "-DRAFT = SPACE ".data
          = "-DRAFT = SPACE".data ++ " ".data := by decide
      have heq : s.take j ++ (" WHERE ".data ++ upper table ++ "-DRAFT = SPACE ".data)
            ++ s.drop j
          = s.take j ++ (" WHERE ".data ++ ((upper table ++ "-DRAFT = SPACE".data)
              ++ (" ".data ++ s.drop j))) := by
        rw [esplit]
        simp [List.append_assoc]
      rw [heq]
      exact key
    | none =>
      have hout : ensure_draft_filter s table
          = rstripDots s ++ (" WHERE ".data ++ upper table ++ "-DRAFT = SPACE.".data) := by
        simp [ensure_draft_filter, hgov, habs, hw, hI]
      rw [hout]
      have key := count_one_master (upper table) s (rstripDots s) []
        " WHERE ".data ".".data habs (rstripDots_prefix_self s) (Or.inl rfl)
        (by rcases hgov with h | h <;> rw [h] <;> decide)
        (by rcases hgov with h | h <;> rw [h] <;> decide)
        (by rcases hgov with h | h <;> rw [h] <;> decide)
        (by rcases hgov with h | h <;> rw [h] <;> decide)
      have esplit : "-DRAFT = SPACE.".data
          = "-DRAFT = SPACE".data ++ ".".data := by decide
      have heq : rstripDots s ++ (" WHERE ".data ++ upper table ++ "-DRAFT = SPACE.".data)
          = rstripDots s ++ (" WHERE ".data ++ ((upper table ++ "-DRAFT = SPACE".data)
              ++ (".".data ++ ([] : List Char)))) := by
        rw [esplit]
        simp [List.append_assoc]
      rw [heq]
      exact key

/-- Witness for C5 at a lower-case governed table and a filterless
statement. -/
theorem c5_exactly_one_occurrence_witness :
    (upper "vbrk".data = "VBRK".data ∨ upper "vbrk".data = "VBRP".data)
    ∧ searchDraft (upper "vbrk".data) "SELECT * FROM VBRK INTO TABLE LT".data = false
    ∧ countOcc (upper "vbrk".data ++ "-DRAFT = SPACE".data)
        (ensure_draft_filter "SELECT * FROM VBRK INTO TABLE LT".data "vbrk".data) = 1 :=
  ⟨by decide, by decide,
   c5_exactly_one_occurrence "SELECT * FROM VBRK INTO TABLE LT".data "vbrk".data
     (by decide) (by decide)⟩
